import Mathlib

/-!
Verification of the codepencil core: the stroke ↔ SVG geometry codec, the
manifest model, the two storage adapters (directory handle and ZIP archive),
and the asynchronous Python execution bridge.

The TypeScript sources are shallowly embedded:
* JS numbers are modelled as rationals (ℚ); `toFixed(2)` followed by
  `parseFloat` is modelled as rounding to an integer multiple of 1/100.
* Strings produced and consumed only by the codec itself (the `d` attribute
  of a path) are modelled as the list of move/line commands the generating
  code writes and the parsing regex `([ML])\s*([\d.-]+)\s+([\d.-]+)` reads
  back: on codec-generated documents the regex matches exactly the emitted
  command/coordinate triples.
* A parsed SVG document is modelled by the attributes `svgToStrokes`
  actually consults (viewBox, width, height, and each path element's `d`).
* Async I/O is modelled by explicit state passing and event traces.
-/

namespace Codepencil

/-! ## Data model (notebookTypes.ts) -/

/-- `Point` from notebookTypes: `{x, y, p, t}`. -/
structure Point where
  x : ℚ
  y : ℚ
  p : ℚ
  t : ℚ
deriving DecidableEq, Repr

/-- `Stroke = Point[]`. -/
abbrev Stroke := List Point

/-- `Cell` from notebookTypes.  The optional UI-state fields
(`status`, `error`, `runStatus`, `stdout`, `stderr`) are omitted: no
operation modelled here reads or writes them. -/
structure Cell where
  id : String
  strokes : List Stroke
  recognizedCode : Option String := none
  height : Option ℚ := none
deriving DecidableEq, Repr

/-- `Notebook = {version: 1, cells}`. -/
structure Notebook where
  version : ℕ
  cells : List Cell
deriving DecidableEq, Repr

/-! ## Geometry codec (svg.ts) -/

/-- A single `M x y` or `L x y` command of a path `d` attribute.  The
coordinate fields hold the number the written decimal literal denotes
(equivalently, what `parseFloat` recovers from it). -/
inductive PathCmd where
  | M (x y : ℚ)
  | L (x y : ℚ)
deriving DecidableEq, Repr

/-- `v.toFixed(2)` re-read with `parseFloat`: the value rounded to the
nearest multiple of 1/100, ties away from zero rounding up (ECMAScript
`toFixed` picks the larger candidate on a tie). -/
def toFixed2 (q : ℚ) : ℚ := (round (q * 100) : ℤ) / 100

/-- The coordinate is already an integer multiple of 1/100 (rounded to two
decimals). -/
def rounded2 (q : ℚ) : Prop := (q * 100).den = 1

instance (q : ℚ) : Decidable (rounded2 q) :=
  inferInstanceAs (Decidable ((q * 100).den = 1))

/-- `strokeToPathD`: empty stroke → empty `d`; single point → `M p L
(p+0.1)`; otherwise `M first` then `L` for each subsequent point. -/
def strokeToPathD : Stroke → List PathCmd
  | [] => []
  | [p] =>
      [PathCmd.M (toFixed2 p.x) (toFixed2 p.y),
       PathCmd.L (toFixed2 (p.x + 1/10)) (toFixed2 (p.y + 1/10))]
  | p :: rest =>
      PathCmd.M (toFixed2 p.x) (toFixed2 p.y) ::
        rest.map (fun q => PathCmd.L (toFixed2 q.x) (toFixed2 q.y))

/-- The attributes of the root `svg` element that `svgToStrokes` consults.
`viewBox` is `none` when the attribute is absent (or the empty string, which
fails the same truthiness test); when present it holds the `parseFloat` of
each whitespace-separated token (`none` for a token that parses to NaN).
`widthAttr`/`heightAttr` likewise: outer `none` = attribute absent or empty,
inner `none` = `parseFloat` returned NaN. -/
structure SvgAttrs where
  viewBox : Option (List (Option ℚ))
  widthAttr : Option (Option ℚ)
  heightAttr : Option (Option ℚ)
deriving DecidableEq, Repr

/-- A parsed SVG document as `svgToStrokes` observes it: the root `svg`
element if the selector finds one, and the `d` attribute of each `path`
element in document order (`none` when the attribute is missing; the empty
command list plays the role of the empty string). -/
structure SvgDoc where
  svgEl : Option SvgAttrs
  paths : List (Option (List PathCmd))
deriving DecidableEq, Repr

/-- `parseFloat(s) || dflt`: NaN and 0 are falsy, so both fall back. -/
def jsOr (v : Option ℚ) (dflt : ℚ) : ℚ :=
  match v with
  | none => dflt
  | some x => if x = 0 then dflt else x

/-- The width/height recovery of `svgToStrokes`, starting from the defaults
800 × 320: when the `viewBox` attribute is present, its 3rd and 4th tokens
are used (falling back per component); the `width`/`height` attributes are
consulted only when `viewBox` is absent. -/
def svgDims (a : SvgAttrs) : ℚ × ℚ :=
  match a.viewBox with
  | some parts =>
      if 4 ≤ parts.length then
        (jsOr (parts.getD 2 none) 800, jsOr (parts.getD 3 none) 320)
      else (800, 320)
  | none =>
      let w : ℚ := match a.widthAttr with
        | some v => jsOr v 800
        | none => 800
      let h : ℚ := match a.heightAttr with
        | some v => jsOr v 320
        | none => 320
      (w, h)

/-- `parsePathD`: every matched `M`/`L` command contributes one point with
placeholder pressure 0.5 and timestamp 0. -/
def parsePathD (d : List PathCmd) : Stroke :=
  d.map (fun c =>
    match c with
    | PathCmd.M x y => { x := x, y := y, p := 1/2, t := 0 }
    | PathCmd.L x y => { x := x, y := y, p := 1/2, t := 0 })

/-- The path loop of `svgToStrokes`: skip a path with no `d` attribute or an
empty one (`if (d)`), parse the rest, and keep only strokes with at least
one point. -/
def decodePaths (paths : List (Option (List PathCmd))) : List Stroke :=
  paths.filterMap (fun d? =>
    match d? with
    | none => none
    | some d =>
        if d.isEmpty then none
        else
          let s := parsePathD d
          if 0 < s.length then some s else none)

/-- Result record of `svgToStrokes`. -/
structure SvgParse where
  strokes : List Stroke
  width : ℚ
  height : ℚ
deriving DecidableEq, Repr

/-- `svgToStrokes`. -/
def svgToStrokes (doc : SvgDoc) : SvgParse :=
  let wh : ℚ × ℚ :=
    match doc.svgEl with
    | some a => svgDims a
    | none => (800, 320)
  { strokes := decodePaths doc.paths, width := wh.1, height := wh.2 }

/-- `strokesToSvg strokes width height strokeWidth`, viewed through the
parser's eyes: the emitted markup carries `viewBox="0 0 W H"`,
`width="W"`, `height="H"`, and one path per stroke whose `strokeToPathD` is
non-empty (empty `d` strings are filtered out before emission).  The
`strokeWidth` parameter only styles the paths and leaves no trace the
decoder reads. -/
def strokesToSvg (strokes : List Stroke) (width height strokeWidth : ℚ) : SvgDoc :=
  { svgEl := some
      { viewBox := some [some 0, some 0, some width, some height],
        widthAttr := some (some width),
        heightAttr := some (some height) },
    paths := ((strokes.map strokeToPathD).filter (fun d => !d.isEmpty)).map some }

/-! ## Manifest model (svg.ts) -/

/-- One entry of `ProjectManifest.cells`. -/
structure ManifestEntry where
  file : String
  height : Option ℚ := none
  recognizedCode : Option String := none
deriving DecidableEq, Repr

/-- `ProjectManifest`.  In the TypeScript type `cells` is mandatory, but
both loaders re-check `manifest.cells` for truthiness after `JSON.parse`
(the JSON may be anything), so the embedded record keeps it optional:
`none` models an absent / null field. -/
structure ProjectManifest where
  version : ℕ
  cells : Option (List ManifestEntry)
  strokeWidth : Option ℚ := none
deriving DecidableEq, Repr

/-- `String(n).padStart(3, "0")`. -/
def padStart3 (s : String) : String :=
  if 3 ≤ s.length then s
  else String.mk (List.replicate (3 - s.length) '0') ++ s

/-- The document name derived purely from 0-based position:
`cell-<idx+1 zero-padded to 3 digits>.svg`. -/
def cellFileName (idx : ℕ) : String :=
  "cell-" ++ padStart3 (toString (idx + 1)) ++ ".svg"

/-- `createManifest cells strokeWidth`. -/
def createManifest (cells : List Cell) (strokeWidth : ℚ) : ProjectManifest :=
  { version := 1,
    strokeWidth := some strokeWidth,
    cells := some (cells.mapIdx (fun idx cell =>
      { file := cellFileName idx,
        height := cell.height,
        recognizedCode := cell.recognizedCode })) }

/-! ## Storage model (projectFiles.ts)

Both adapters observe a project as a flat set of named members.  A member's
content is modelled by what the loading code extracts from its text:
an SVG member by its parsed document, a JSON member by its `JSON.parse`
result (`none` when parsing throws). -/

/-- Content of one project member. -/
inductive FileContent where
  | svg (doc : SvgDoc)
  | json (m : Option ProjectManifest)
deriving DecidableEq, Repr

/-- A project root / archive: named members in enumeration order. -/
abbrev Store := List (String × FileContent)

/-- Fetch a member by exact name (`getFileHandle` / `zip.file`); `none`
models a missing member (the directory handle throwing `NotFoundError`,
the archive lookup returning null). -/
def storeLookup (store : Store) (name : String) : Option FileContent :=
  (store.find? (fun e => e.1 = name)).map (fun e => e.2)

/-- Running `DOMParser`/`svgToStrokes` machinery over a member's text:
non-SVG text yields a document with no `svg` root and no paths. -/
def asSvgDoc : FileContent → SvgDoc
  | FileContent.svg d => d
  | FileContent.json _ => { svgEl := none, paths := [] }

/-- The cell a loader pushes for a found manifest entry: strokes from the
parsed document, `height: cellInfo.height ?? parsed.height`, the entry's
`recognizedCode`, and a fresh id (the `k`-th call of `id()` in this load,
modelled by the supply `idn`). -/
def loadedCell (idn : ℕ → String) (k : ℕ) (e : ManifestEntry) (c : FileContent) : Cell :=
  let parsed := svgToStrokes (asSvgDoc c)
  { id := idn k,
    strokes := parsed.strokes,
    height := some (e.height.getD parsed.height),
    recognizedCode := e.recognizedCode }

/-- The manifest-order loading loop of `loadProject`: a `getFileHandle`
failure for an entry (missing member) is caught and the entry skipped with
a warning; a found entry always pushes one cell. -/
def dirManifestCells (store : Store) (idn : ℕ → String) :
    List ManifestEntry → ℕ → List Cell
  | [], _ => []
  | e :: rest, k =>
      match storeLookup store e.file with
      | none => dirManifestCells store idn rest k
      | some c => loadedCell idn k e c :: dirManifestCells store idn rest (k + 1)

/-- The manifest-order loading loop of `importProjectFromZip`: a null
`zip.file(cellInfo.file)` is skipped silently; a found entry always pushes
one cell. -/
def zipManifestCells (store : Store) (idn : ℕ → String) :
    List ManifestEntry → ℕ → List Cell
  | [], _ => []
  | e :: rest, k =>
      match storeLookup store e.file with
      | none => zipManifestCells store idn rest k
      | some c => loadedCell idn k e c :: zipManifestCells store idn rest (k + 1)

/-- Lexicographic comparison of character sequences. -/
def charListLe : List Char → List Char → Bool
  | [], _ => true
  | _ :: _, [] => false
  | a :: as, b :: bs =>
      if a < b then true
      else if b < a then false
      else charListLe as bs

/-- The comparator of the archive scan's default `Array.prototype.sort()`:
lexicographic comparison of UTF-16 code units, which for the BMP names at
hand coincides with code-point order on the character sequence.  This is
exact per ECMAScript for the default (comparator-less) sort.  It does NOT
model `localeCompare`, whose order is locale- and host-dependent; the
directory scan's collation is an environment parameter instead (see
`sortPairsBy`). -/
def nameLe (a b : String) : Bool := charListLe a.data b.data

/-- `s.endsWith(post)`, compared over character sequences. -/
def strEndsWith (s post : String) : Bool := post.data.isSuffixOf s.data

/-- Insert one name into a name-sorted list. -/
def insertName (n : String) : List String → List String
  | [] => [n]
  | m :: rest => if nameLe n m then n :: m :: rest else m :: insertName n rest

/-- Sorting a list of member names (see `nameLe` for the collation). -/
def sortNames (l : List String) : List String := l.foldr insertName []

/-- The cell the fallback scan pushes for one SVG member: no manifest
metadata, so `height` is the parsed document height and there is no
recognized code. -/
def scannedCell (idn : ℕ → String) (k : ℕ) (c : FileContent) : Cell :=
  let parsed := svgToStrokes (asSvgDoc c)
  { id := idn k,
    strokes := parsed.strokes,
    height := some parsed.height,
    recognizedCode := none }

/-- Insert one `(name, handle)` entry into a list sorted by the comparator
`lc` on names; comparisons touch only the name. -/
def insertPairBy (lc : String → String → Bool) (e : String × FileContent) :
    List (String × FileContent) → List (String × FileContent)
  | [] => [e]
  | f :: rest => if lc e.1 f.1 then e :: f :: rest else f :: insertPairBy lc e rest

/-- `svgFiles.sort((a, b) => a.name.localeCompare(b.name))` over the
collected `(name, handle)` entries.  `localeCompare`'s order depends on
the host's locale and Intl data and is not derivable from the source, so
— like `id()`, modelled by the supply `idn` — the collation `lc` is an
environment parameter; real hosts order mixed-case names differently from
the code-unit sort of the archive scan.  An insertion sort by a consistent
comparator is one admissible implementation of `Array.prototype.sort`
with a comparator. -/
def sortPairsBy (lc : String → String → Bool) (l : List (String × FileContent)) :
    List (String × FileContent) :=
  l.foldr (insertPairBy lc) []

/-- Reading loop over the scan result of `loadProject`: the sorted entries
carry their handles, so each is read directly. -/
def dirScanLoop (idn : ℕ → String) : List (String × FileContent) → ℕ → List Cell
  | [], _ => []
  | e :: rest, k => scannedCell idn k e.2 :: dirScanLoop idn rest (k + 1)

/-- The no-manifest fallback of `loadProject`: enumerate the root's file
entries whose name ends in `.svg`, sort them by name under the host
collation `lc` (`localeCompare`), and load each in order. -/
def dirScanCells (store : Store) (idn : ℕ → String)
    (lc : String → String → Bool) : List Cell :=
  dirScanLoop idn (sortPairsBy lc (store.filter (fun e => strEndsWith e.1 ".svg"))) 0

/-- Reading loop over the scan result of `importProjectFromZip`: each
sorted name is looked up again with `zip.file(name)` and skipped if null. -/
def zipScanLoop (store : Store) (idn : ℕ → String) : List String → ℕ → List Cell
  | [], _ => []
  | n :: rest, k =>
      match storeLookup store n with
      | none => zipScanLoop store idn rest k
      | some c => scannedCell idn k c :: zipScanLoop store idn rest (k + 1)

/-- The no-manifest fallback of `importProjectFromZip`: filter the member
names ending in `.svg`, sort, and load each by lookup. -/
def zipScanCells (store : Store) (idn : ℕ → String) : List Cell :=
  let svgFiles := sortNames ((store.map (fun e => e.1)).filter
    (fun n => strEndsWith n ".svg"))
  zipScanLoop store idn svgFiles 0

/-- Outcome record of `loadProject` / `importProjectFromZip`. -/
structure LoadResult where
  success : Bool
  notebook : Option Notebook := none
  strokeWidth : Option ℚ := none
  error : Option String := none
deriving DecidableEq, Repr

/-- The common ending of both loaders: zero recovered cells is a failure
with the given message, otherwise a success carrying the notebook and the
manifest's stroke width. -/
def finishLoad (cells : List Cell) (sw : Option ℚ) (emptyMsg : String) : LoadResult :=
  if cells.length = 0 then { success := false, error := some emptyMsg }
  else
    { success := true,
      notebook := some { version := 1, cells := cells },
      strokeWidth := sw }

/-- The manifest entries whose documents are present in the store, paired
with those documents, in manifest order. -/
def foundEntries (store : Store) (entries : List ManifestEntry) :
    List (ManifestEntry × FileContent) :=
  entries.filterMap (fun e => (storeLookup store e.file).map (fun c => (e, c)))

/-- The `manifest` local of both loaders: the parsed manifest when the
member is present and its text parses as JSON, `null` otherwise.  (In the
zip adapter an unparseable present member instead aborts the import before
this value is consulted; see `importProjectFromZip`.) -/
def manifestOf (store : Store) : Option ProjectManifest :=
  match storeLookup store "manifest.json" with
  | some (FileContent.json (some m)) => some m
  | _ => none

/-- The `cells` local of `loadProject`: manifest order when the manifest
is present with a cells array, the sorted SVG scan otherwise. -/
def dirCellsOf (store : Store) (idn : ℕ → String)
    (lc : String → String → Bool) : List Cell :=
  match manifestOf store with
  | some m =>
      match m.cells with
      | some entries => dirManifestCells store idn entries 0
      | none => dirScanCells store idn lc
  | none => dirScanCells store idn lc

/-- The `cells` local of `importProjectFromZip`. -/
def zipCellsOf (store : Store) (idn : ℕ → String) : List Cell :=
  match manifestOf store with
  | some m =>
      match m.cells with
      | some entries => zipManifestCells store idn entries 0
      | none => zipScanCells store idn
  | none => zipScanCells store idn

/-- `loadProject`, given the capability-probe result, the picked directory
(the user grant is modelled as succeeding; a missing capability
short-circuits as in the source), the `id()` supply and the host
collation.  A failure anywhere in the inner manifest `try` block —
missing member or `JSON.parse` throwing — is caught and the adapter falls
back to the SVG scan. -/
def loadProject (hasFS : Bool) (store : Store) (idn : ℕ → String)
    (lc : String → String → Bool) : LoadResult :=
  if hasFS = false then
    { success := false, error := some "File System Access API not supported" }
  else
    finishLoad (dirCellsOf store idn lc)
      ((manifestOf store).bind (fun m => m.strokeWidth)) "No cells found in project"

/-- `importProjectFromZip`.  Unlike `loadProject`, the `JSON.parse` of a
present `manifest.json` member is not guarded locally: a parse failure
(unparseable JSON, including a member that holds SVG text) propagates to
the outer catch and the whole import fails with the parse error's message
(host-defined text, stood in for by a fixed string here). -/
def importProjectFromZip (store : Store) (idn : ℕ → String) : LoadResult :=
  match storeLookup store "manifest.json" with
  | some (FileContent.json none) =>
      { success := false, error := some "Unexpected token in JSON" }
  | some (FileContent.svg _) =>
      { success := false, error := some "Unexpected token in JSON" }
  | _ =>
      finishLoad (zipCellsOf store idn)
        ((manifestOf store).bind (fun m => m.strokeWidth)) "No cells found in ZIP"

/-! ## Save traces (projectFiles.ts) -/

/-- One write performed by a save. -/
inductive WriteEvent where
  | writeDoc (name : String) (doc : SvgDoc)
  | writeManifest (m : ProjectManifest)
deriving DecidableEq, Repr

/-- The per-cell write loop of `saveProject`: each iteration awaits the
write and close of one document before the next begins, so the list order
is the temporal order of completed writes. -/
def cellWrites (strokeWidth canvasWidth : ℚ) : List Cell → ℕ → List WriteEvent
  | [], _ => []
  | cell :: rest, i =>
      WriteEvent.writeDoc (cellFileName i)
        (strokesToSvg cell.strokes canvasWidth (cell.height.getD 320) strokeWidth) ::
      cellWrites strokeWidth canvasWidth rest (i + 1)

/-- The complete, temporally ordered write sequence of one successful
`saveProject` run: all cell documents, then the manifest. -/
def saveProjectWrites (cells : List Cell) (strokeWidth canvasWidth : ℚ) :
    List WriteEvent :=
  cellWrites strokeWidth canvasWidth cells 0 ++
    [WriteEvent.writeManifest (createManifest cells strokeWidth)]

/-- The members `saveProject` leaves in the directory, in write order. -/
def dirCellDocs (strokeWidth canvasWidth : ℚ) : List Cell → ℕ → Store
  | [], _ => []
  | cell :: rest, i =>
      (cellFileName i,
        FileContent.svg
          (strokesToSvg cell.strokes canvasWidth (cell.height.getD 320) strokeWidth)) ::
      dirCellDocs strokeWidth canvasWidth rest (i + 1)

/-- The project as written by `saveProject`. -/
def savedStore (cells : List Cell) (strokeWidth canvasWidth : ℚ) : Store :=
  dirCellDocs strokeWidth canvasWidth cells 0 ++
    [("manifest.json", FileContent.json (some (createManifest cells strokeWidth)))]

/-- The members `exportProjectAsZip` adds to the archive, in order. -/
def zipCellDocs (strokeWidth canvasWidth : ℚ) : List Cell → ℕ → Store
  | [], _ => []
  | cell :: rest, i =>
      (cellFileName i,
        FileContent.svg
          (strokesToSvg cell.strokes canvasWidth (cell.height.getD 320) strokeWidth)) ::
      zipCellDocs strokeWidth canvasWidth rest (i + 1)

/-- The project as packed by `exportProjectAsZip`. -/
def zipExportStore (cells : List Cell) (strokeWidth canvasWidth : ℚ) : Store :=
  zipCellDocs strokeWidth canvasWidth cells 0 ++
    [("manifest.json", FileContent.json (some (createManifest cells strokeWidth)))]

/-! ## Execution bridge (py.ts / py.worker.ts) -/

/-- A `{stdout, stderr}` pair. -/
structure Response where
  stdout : String
  stderr : String
deriving DecidableEq, Repr

/-- The module state of py.ts: the `reqId` counter and the `pending` map.
A pending entry is keyed by the request token and stands for the stored
`resolve` callback; the value records the code submitted with that token,
which is what the callback will hand its caller's continuation. -/
structure BridgeState where
  reqId : ℕ
  pending : List (ℕ × String)
deriving DecidableEq, Repr

/-- Initial module state: `reqId = 0`, empty map. -/
def initBridge : BridgeState := { reqId := 0, pending := [] }

/-- `pending.get(k)`. -/
def mapGet (m : List (ℕ × String)) (k : ℕ) : Option String :=
  (m.find? (fun e => e.1 == k)).map (fun e => e.2)

/-- `pending.set(k, v)`: later `get`s of `k` see `v`, other keys are
untouched. -/
def mapSet (m : List (ℕ × String)) (k : ℕ) (v : String) : List (ℕ × String) :=
  (k, v) :: m.filter (fun e => e.1 != k)

/-- `pending.delete(k)`. -/
def mapDelete (m : List (ℕ × String)) (k : ℕ) : List (ℕ × String) :=
  m.filter (fun e => e.1 != k)

/-- One observable event at the bridge: a `runPython(code)` call, or a
worker response message carrying a token and a `{stdout, stderr}` pair. -/
inductive BridgeEvent where
  | submit (code : String)
  | respond (token : ℕ) (r : Response)
deriving DecidableEq, Repr

/-- One delivered resolution: the pending request keyed by `token`
(submitted with `code`) resolves with `result`. -/
structure Resolution where
  token : ℕ
  code : String
  result : Response
deriving DecidableEq, Repr

/-- One step of the bridge.  `submit` allocates the token `++reqId` and
records the pending entry; `respond` looks the token up in `pending`,
and either deletes the entry and resolves exactly that request, or — for
an unknown or already-resolved token — does nothing. -/
def bridgeStep (s : BridgeState) : BridgeEvent → BridgeState × Option Resolution
  | BridgeEvent.submit code =>
      let t := s.reqId + 1
      ({ reqId := t, pending := mapSet s.pending t code }, none)
  | BridgeEvent.respond t r =>
      match mapGet s.pending t with
      | some code =>
          ({ reqId := s.reqId, pending := mapDelete s.pending t },
           some { token := t, code := code, result := r })
      | none => (s, none)

/-- Run a sequence of events, collecting the resolutions in delivery
order. -/
def bridgeRun (s : BridgeState) : List BridgeEvent → BridgeState × List Resolution
  | [] => (s, [])
  | ev :: rest =>
      let step := bridgeStep s ev
      let tail := bridgeRun step.1 rest
      (tail.1, step.2.toList ++ tail.2)

/-- The codes submitted by a trace, in submission order: the token of the
i-th submission (0-based) is `i + 1`. -/
def submitsOf : List BridgeEvent → List String
  | [] => []
  | BridgeEvent.submit c :: rest => c :: submitsOf rest
  | BridgeEvent.respond _ _ :: rest => submitsOf rest

/-- Invariant tying a reachable bridge state to the codes submitted so far
(`subs`) and the resolutions delivered so far (`log`): the counter equals
the number of submissions; every pending token is in range and maps to the
code submitted with it; pending tokens are pairwise distinct; logged
tokens are pairwise distinct, in range, carry the code submitted with
their token, and are no longer pending. -/
def goodState (s : BridgeState) (subs : List String) (log : List Resolution) : Prop :=
  s.reqId = subs.length ∧
  (∀ e ∈ s.pending, 1 ≤ e.1 ∧ e.1 ≤ s.reqId ∧ subs[e.1 - 1]? = some e.2) ∧
  (s.pending.map Prod.fst).Nodup ∧
  (log.map Resolution.token).Nodup ∧
  (∀ r ∈ log, 1 ≤ r.token ∧ r.token ≤ s.reqId ∧ subs[r.token - 1]? = some r.code) ∧
  (∀ r ∈ log, ∀ e ∈ s.pending, r.token ≠ e.1)

/-- A trace with two overlapping submissions, out-of-order responses, one
duplicate response and one response to an unknown token. -/
def evs0 : List BridgeEvent :=
  [BridgeEvent.submit "a", BridgeEvent.submit "b",
   BridgeEvent.respond 2 ⟨"ob", "eb"⟩, BridgeEvent.respond 2 ⟨"dup", ""⟩,
   BridgeEvent.respond 1 ⟨"oa", "ea"⟩, BridgeEvent.respond 7 ⟨"ox", "ex"⟩]

/-! ## Promise settlement of `runPython` and the worker handler -/

/-- What the caller can observe of the promise `runPython` returns. -/
inductive PromiseState where
  | stillPending
  | resolved (r : Response)
  | rejected (err : String)
deriving DecidableEq, Repr

/-- The immediate settlement of `new Promise((resolve) => { pending.set…;
getWorker().postMessage… })`: the executor body is not wrapped in any
try/catch, so a synchronous fault while creating the worker or posting the
message (ECMAScript: an executor that throws rejects the new promise)
rejects the returned promise; otherwise the promise is still pending,
waiting for a worker response. -/
def runPythonImmediate (dispatchFault : Option String) : PromiseState :=
  match dispatchFault with
  | some err => PromiseState.rejected err
  | none => PromiseState.stillPending

/-- What running `code` in the worker would observe: the text the code
writes to stdout and stderr, and the uncaught fault it raises, if any. -/
structure ExecBehavior where
  printed : String
  errPrinted : String
  raised : Option String := none
deriving DecidableEq, Repr

/-- The worker's `run`: stdout/stderr are captured into string buffers;
an uncaught fault of the executed code is caught and its text appended to
the stderr buffer (`sys.stderr.write(String(e))`), never rethrown. -/
def workerRun (b : ExecBehavior) : Response :=
  { stdout := b.printed,
    stderr := b.errPrinted ++ b.raised.getD "" }

/-- The worker's `onmessage` handler: on success it posts `{id, ...run}`;
if the worker machinery itself faults (`run` throwing before producing a
result, e.g. during interpreter start-up), the catch posts
`{id, stdout: "", stderr: String(err)}`.  Either way a reply carrying the
request's own id is posted. -/
def workerOnMessage (reqid : String) (machinery : Except String ExecBehavior) :
    String × Response :=
  match machinery with
  | Except.ok b => (reqid, workerRun b)
  | Except.error err => (reqid, { stdout := "", stderr := err })

/-- The point the decoder reconstructs from a coordinate pair that rounds
to itself: same x and y, pressure 1/2, timestamp 0. -/
def roundTripPoint (a : Point) : Point := { x := a.x, y := a.y, p := 1/2, t := 0 }

/-! ## Concrete fixtures used by witnesses and counterexamples -/

/-- A two-point stroke with integer coordinates. -/
def stroke0 : Stroke := [{ x := 1, y := 2, p := 1, t := 3 }, { x := 4, y := 5, p := 1, t := 9 }]

/-- A one-stroke drawing. -/
def strokes0 : List Stroke := [stroke0]

/-- A deterministic id supply standing for `id()`. -/
def idn0 : ℕ → String := fun n => toString n

/-- An encoded document with one two-point stroke at (1,1)–(2,2). -/
def docA : SvgDoc :=
  { svgEl := some
      { viewBox := some [some 0, some 0, some 800, some 320],
        widthAttr := some (some 800), heightAttr := some (some 320) },
    paths := [some [PathCmd.M 1 1, PathCmd.L 2 2]] }

/-- An encoded document with one two-point stroke at (5,5)–(6,6). -/
def docB : SvgDoc :=
  { svgEl := some
      { viewBox := some [some 0, some 0, some 800, some 320],
        widthAttr := some (some 800), heightAttr := some (some 320) },
    paths := [some [PathCmd.M 5 5, PathCmd.L 6 6]] }

/-- Two manifest entries naming `cell-002.svg` before `cell-001.svg`, the
reverse of lexical order, with per-entry metadata. -/
def entries0 : List ManifestEntry :=
  [⟨"cell-002.svg", none, some "B"⟩, ⟨"cell-001.svg", some 111, some "A"⟩]

/-- A manifest listing `entries0`. -/
def manifest0 : ProjectManifest :=
  { version := 1, strokeWidth := some 4, cells := some entries0 }

/-- A store holding `manifest0` and both documents it references. -/
def store0 : Store :=
  [("manifest.json", FileContent.json (some manifest0)),
   ("cell-001.svg", FileContent.svg docA),
   ("cell-002.svg", FileContent.svg docB)]

/-- `store0` with `cell-001.svg` missing: one of the two referenced
documents is unfetchable. -/
def store1 : Store :=
  [("manifest.json", FileContent.json (some manifest0)),
   ("cell-002.svg", FileContent.svg docB)]

/-- A store whose `manifest.json` does not parse as JSON, next to one
loadable document. -/
def store2 : Store :=
  [("manifest.json", FileContent.json none),
   ("c.svg", FileContent.svg docA)]

/-- A cell carrying manifest metadata, for save-side witnesses. -/
def cellW : Cell :=
  { id := "w", strokes := [], recognizedCode := some "print", height := some 100 }

/-- ASCII lowercasing of one character. -/
def lowerAscii (c : Char) : Char :=
  if 64 < c.toNat ∧ c.toNat < 91 then Char.ofNat (c.toNat + 32) else c

/-- A collation in the style of locale-aware comparison: letters compare
case-insensitively, so lowercase `a` sorts before uppercase `B` — the
order common `localeCompare` locales give mixed-case names, and the
opposite of the code-unit sort. -/
def localeLikeLe (a b : String) : Bool :=
  charListLe (a.data.map lowerAscii) (b.data.map lowerAscii)

/-- A document with the given root attributes and paths. -/
def svgDocWith (vb : Option (List (Option ℚ))) (w h : Option (Option ℚ))
    (paths : List (Option (List PathCmd))) : SvgDoc :=
  { svgEl := some { viewBox := vb, widthAttr := w, heightAttr := h }, paths := paths }

/-- A pathless document whose viewBox height is 50. -/
def docH50 : SvgDoc := svgDocWith (some [some 0, some 0, some 100, some 50]) none none []

/-- A pathless document whose viewBox height is 60. -/
def docH60 : SvgDoc := svgDocWith (some [some 0, some 0, some 100, some 60]) none none []

/-- A manifest-less store with mixed-case member names, on which the two
collations order the members differently. -/
def storeMixed : Store :=
  [("B.svg", FileContent.svg docH50), ("a.svg", FileContent.svg docH60)]

/-! ## Codec round trip (C1) -/

/-- A rational with denominator 1 is an integer multiple of 1/100 as
well. -/
lemma rounded2_of_den_one {q : ℚ} (h : q.den = 1) : rounded2 q := by
  unfold rounded2
  have hq : q = (q.num : ℚ) := ((Rat.den_eq_one_iff q).mp h).symm
  rw [hq]
  have h2 : ((q.num : ℚ)) * 100 = ((q.num * 100 : ℤ) : ℚ) := by push_cast; ring
  rw [h2, Rat.den_intCast]

/-- A coordinate already rounded to two decimals is a fixed point of
`toFixed2`. -/
lemma toFixed2_of_rounded2 {q : ℚ} (h : rounded2 q) : toFixed2 q = q := by
  have hq : (((q * 100).num : ℤ) : ℚ) = q * 100 := (Rat.den_eq_one_iff (q * 100)).mp h
  unfold toFixed2
  rw [← hq, round_intCast, hq]
  field_simp

/-- A non-empty stroke never encodes to an empty path. -/
lemma strokeToPathD_ne_nil {s : Stroke} (h : s ≠ []) : strokeToPathD s ≠ [] := by
  match s with
  | [] => exact absurd rfl h
  | [a] => simp [strokeToPathD]
  | a :: b :: rest => simp [strokeToPathD]

/-- On a stroke of two or more points, decoding the encoded path recovers
each point with rounded coordinates and placeholder metadata. -/
lemma parsePathD_strokeToPathD {s : Stroke} (h : 2 ≤ s.length) :
    parsePathD (strokeToPathD s) =
      s.map (fun a => roundTripPoint { a with x := toFixed2 a.x, y := toFixed2 a.y }) := by
  match s with
  | [] => simp at h
  | [a] => simp at h
  | a :: b :: rest =>
      simp only [strokeToPathD, parsePathD, List.map_cons, List.map_map]
      rfl

/-- `decodePaths` steps over a non-empty path that parses to a non-empty
stroke. -/
lemma decodePaths_cons_of {d : List PathCmd} {L : List (Option (List PathCmd))}
    (hne : d.isEmpty = false) (hpos : 0 < (parsePathD d).length) :
    decodePaths (some d :: L) = parsePathD d :: decodePaths L := by
  have hdne : d ≠ [] := by simpa using hne
  simp [decodePaths, List.filterMap_cons, hdne, hpos]

/-- Structure of the full round trip: decoding the document produced for a
list of ≥2-point strokes with 2-decimal coordinates maps each point to
itself with pressure 1/2 and timestamp 0. -/
lemma decode_encode (strokes : List Stroke) (W H sw : ℚ)
    (hlen : ∀ s ∈ strokes, 2 ≤ s.length)
    (hround : ∀ s ∈ strokes, ∀ a ∈ s, rounded2 a.x ∧ rounded2 a.y) :
    (svgToStrokes (strokesToSvg strokes W H sw)).strokes =
      strokes.map (fun s => s.map roundTripPoint) := by
  show decodePaths (((strokes.map strokeToPathD).filter (fun d => !d.isEmpty)).map some)
    = strokes.map (fun s => s.map roundTripPoint)
  induction strokes with
  | nil => rfl
  | cons s rest ih =>
      have hs : 2 ≤ s.length := hlen s (List.mem_cons_self s rest)
      have hsne : s ≠ [] := by
        intro hnil; rw [hnil] at hs; simp at hs
      have hneB : (strokeToPathD s).isEmpty = false := by
        simpa using strokeToPathD_ne_nil hsne
      have hparse := parsePathD_strokeToPathD hs
      have hpos : 0 < (parsePathD (strokeToPathD s)).length := by
        rw [hparse]
        simp only [List.length_map]
        exact List.length_pos.mpr hsne
      have hrest := ih (fun u hu => hlen u (List.mem_cons_of_mem _ hu))
        (fun u hu => hround u (List.mem_cons_of_mem _ hu))
      have hfix : s.map (fun a => roundTripPoint { a with x := toFixed2 a.x, y := toFixed2 a.y })
          = s.map roundTripPoint := by
        apply List.map_congr_left
        intro a ha
        obtain ⟨hx, hy⟩ := hround s (List.mem_cons_self s rest) a ha
        simp [roundTripPoint, toFixed2_of_rounded2 hx, toFixed2_of_rounded2 hy]
      calc decodePaths ((((s :: rest).map strokeToPathD).filter (fun d => !d.isEmpty)).map some)
          = decodePaths (some (strokeToPathD s) ::
              ((rest.map strokeToPathD).filter (fun d => !d.isEmpty)).map some) := by
            simp [List.filter_cons, hneB]
        _ = parsePathD (strokeToPathD s) ::
              decodePaths (((rest.map strokeToPathD).filter (fun d => !d.isEmpty)).map some) :=
            decodePaths_cons_of hneB hpos
        _ = (s :: rest).map (fun u => u.map roundTripPoint) := by
            rw [hparse, hfix, List.map_cons, hrest]

/-- **C1**: for strokes with at least two points each and coordinates
already rounded to two decimals, decoding the document `strokesToSvg`
produces (at any width, height and stroke width) yields the same number of
strokes in order, each point within 0.01 of the original in x and y, and
every decoded point carries pressure 0.5 and timestamp 0. -/
theorem c1_round_trip (strokes : List Stroke) (W H sw : ℚ)
    (hlen : ∀ s ∈ strokes, 2 ≤ s.length)
    (hround : ∀ s ∈ strokes, ∀ a ∈ s, rounded2 a.x ∧ rounded2 a.y) :
    (svgToStrokes (strokesToSvg strokes W H sw)).strokes.length = strokes.length ∧
    (∀ (i : ℕ) (s d : Stroke), strokes[i]? = some s →
      (svgToStrokes (strokesToSvg strokes W H sw)).strokes[i]? = some d →
      d.length = s.length ∧
      ∀ (j : ℕ) (a b : Point), s[j]? = some a → d[j]? = some b →
        |b.x - a.x| ≤ 1/100 ∧ |b.y - a.y| ≤ 1/100 ∧ b.p = 1/2 ∧ b.t = 0) := by
  have hde := decode_encode strokes W H sw hlen hround
  rw [hde]
  refine ⟨by simp, ?_⟩
  intro i s d hsi hdi
  rw [List.getElem?_map, hsi] at hdi
  obtain rfl : d = s.map roundTripPoint := by simpa using hdi.symm
  refine ⟨by simp, ?_⟩
  intro j a b haj hbj
  rw [List.getElem?_map, haj] at hbj
  obtain rfl : b = roundTripPoint a := by simpa using hbj.symm
  refine ⟨?_, ?_, rfl, rfl⟩ <;>
    · simp only [roundTripPoint, sub_self, abs_zero]
      norm_num

/-- Witness for C1: the hypotheses hold at `strokes0` and the round trip
preserves the stroke count there. -/
theorem c1_round_trip_witness :
    (∀ s ∈ strokes0, 2 ≤ s.length) ∧
    (∀ s ∈ strokes0, ∀ a ∈ s, rounded2 a.x ∧ rounded2 a.y) ∧
    (svgToStrokes (strokesToSvg strokes0 800 320 4)).strokes.length
      = strokes0.length := by
  have h1 : ∀ s ∈ strokes0, 2 ≤ s.length := by decide
  have h2 : ∀ s ∈ strokes0, ∀ a ∈ s, rounded2 a.x ∧ rounded2 a.y := by
    intro s hs a ha
    simp only [strokes0, List.mem_singleton] at hs
    subst hs
    simp only [stroke0, List.mem_cons, List.not_mem_nil, or_false] at ha
    rcases ha with rfl | rfl <;>
      exact ⟨rounded2_of_den_one rfl, rounded2_of_den_one rfl⟩
  exact ⟨h1, h2, (c1_round_trip strokes0 800 320 4 h1 h2).1⟩

/-! ## Dimension recovery (C9) -/

/-- **C9** (counterexample): a document whose `viewBox` is present but
entirely unparseable (four NaN tokens) and whose `width`/`height`
attributes parse to 500 and 200 decodes to the fallback 800 × 320: the
present `viewBox` masks the parseable attributes, contradicting the claim
that the attribute values would be used. -/
theorem c9_dims_counterexample :
    (svgToStrokes (svgDocWith (some [none, none, none, none])
      (some (some 500)) (some (some 200)) [])).width = 800 ∧
    (svgToStrokes (svgDocWith (some [none, none, none, none])
      (some (some 500)) (some (some 200)) [])).height = 320 ∧
    ¬ (svgToStrokes (svgDocWith (some [none, none, none, none])
      (some (some 500)) (some (some 200)) [])).width = 500 := by
  refine ⟨rfl, rfl, ?_⟩
  intro h
  have h8 : (800 : ℚ) = 500 := h
  norm_num at h8

/-- **C9** (amended): when the `viewBox` attribute is present it alone
determines the recovered dimensions — the `width`/`height` attributes are
ignored entirely and unparseable (or zero) components fall back to
800/320; the attributes are consulted only when `viewBox` is absent, with
the same per-component fallback; a well-formed `0 0 W H` viewBox yields
`W × H` up to the zero-is-falsy fallback; and a document with no `svg`
root yields the constants 800 × 320. -/
theorem c9_dims_priority :
    (∀ (vb : List (Option ℚ)) (w1 h1 w2 h2 : Option (Option ℚ))
        (paths : List (Option (List PathCmd))),
      svgToStrokes (svgDocWith (some vb) w1 h1 paths)
        = svgToStrokes (svgDocWith (some vb) w2 h2 paths)) ∧
    (∀ (w h : Option ℚ) (paths : List (Option (List PathCmd))),
      (svgToStrokes (svgDocWith none (some w) (some h) paths)).width = jsOr w 800 ∧
      (svgToStrokes (svgDocWith none (some w) (some h) paths)).height = jsOr h 320) ∧
    (∀ (W H : ℚ) (w h : Option (Option ℚ)) (paths : List (Option (List PathCmd))),
      (svgToStrokes (svgDocWith (some [some 0, some 0, some W, some H]) w h paths)).width
        = jsOr (some W) 800 ∧
      (svgToStrokes (svgDocWith (some [some 0, some 0, some W, some H]) w h paths)).height
        = jsOr (some H) 320) ∧
    (∀ paths : List (Option (List PathCmd)),
      (svgToStrokes { svgEl := none, paths := paths }).width = 800 ∧
      (svgToStrokes { svgEl := none, paths := paths }).height = 320) := by
  refine ⟨?_, ?_, ?_, ?_⟩
  · intro vb w1 h1 w2 h2 paths
    simp [svgToStrokes, svgDocWith, svgDims]
  · intro w h paths
    exact ⟨rfl, rfl⟩
  · intro W H w h paths
    exact ⟨rfl, rfl⟩
  · intro paths
    exact ⟨rfl, rfl⟩

/-! ## Execution faults and promise settlement (C3) -/

/-- **C3** (counterexample): a synchronous transport fault while
dispatching — `new Worker(...)` or `postMessage` throwing inside the
executor of the promise `runPython` builds — rejects that promise, because
`runPython` contains no catch; it is not resolved with empty stdout and
the failure description as stderr, as the claim requires. -/
theorem c3_reject_counterexample :
    runPythonImmediate (some "Worker failed") = PromiseState.rejected "Worker failed" ∧
    runPythonImmediate (some "Worker failed")
      ≠ PromiseState.resolved { stdout := "", stderr := "Worker failed" } := by
  exact ⟨rfl, by decide⟩

/-- **C3** (amended): the worker-side guarantees hold — the worker handler
always posts a reply carrying the request's own id, a fault raised by the
executed code is appended to the captured stderr text of an ordinary
reply, and a fault of the worker machinery itself is reported as a reply
with empty stdout and the failure description as stderr (so such faults
resolve the caller's promise) — but a bridge-side synchronous dispatch
fault rejects the promise returned by `runPython`, and only a fault-free
dispatch leaves it pending for the worker's reply. -/
theorem c3_fault_channels :
    (∀ (reqid : String) (b : ExecBehavior),
      workerOnMessage reqid (Except.ok b)
        = (reqid, { stdout := b.printed, stderr := b.errPrinted ++ b.raised.getD "" })) ∧
    (∀ (reqid err : String),
      workerOnMessage reqid (Except.error err)
        = (reqid, { stdout := "", stderr := err })) ∧
    (∀ err : String, runPythonImmediate (some err) = PromiseState.rejected err) ∧
    runPythonImmediate none = PromiseState.stillPending := by
  exact ⟨fun reqid b => rfl, fun reqid err => rfl, fun err => rfl, rfl⟩

/-! ## Manifest construction (C7) -/

/-- **C7**: `createManifest` emits exactly one entry per cell, in cell
order; the i-th entry's file name is derived purely from the position and
its height and recognizedCode are copied verbatim from the i-th cell; and
the construction is deterministic in its arguments. -/
theorem c7_createManifest (cells : List Cell) (strokeWidth : ℚ) :
    ∃ entries : List ManifestEntry,
      (createManifest cells strokeWidth).cells = some entries ∧
      entries.length = cells.length ∧
      (∀ (i : ℕ) (c : Cell), cells[i]? = some c →
        entries[i]? = some ⟨cellFileName i, c.height, c.recognizedCode⟩) ∧
      (∀ (cells2 : List Cell) (sw2 : ℚ), cells2 = cells → sw2 = strokeWidth →
        createManifest cells2 sw2 = createManifest cells strokeWidth) := by
  refine ⟨_, rfl, ?_, ?_, ?_⟩
  · simp
  · intro i c hc
    have hi : i < cells.length := by
      by_contra hge
      rw [List.getElem?_eq_none (by omega)] at hc
      exact Option.noConfusion hc
    have hi2 : i < (cells.mapIdx (fun idx cell =>
        (⟨cellFileName idx, cell.height, cell.recognizedCode⟩ : ManifestEntry))).length := by
      simpa [List.length_mapIdx] using hi
    rw [List.getElem?_eq_getElem hi2]
    have hg : cells[i] = c := by
      have hh := List.getElem?_eq_getElem hi
      rw [hc] at hh
      exact (Option.some_injective _ hh.symm)
    have hmi := List.get_mapIdx cells (fun idx cell =>
      (⟨cellFileName idx, cell.height, cell.recognizedCode⟩ : ManifestEntry)) i hi
    simp only [List.get_eq_getElem] at hmi
    rw [hmi, hg]
  · intro cells2 sw2 h1 h2
    rw [h1, h2]

/-- Witness for C7 at a one-cell list: the entry carries the
position-derived name and the cell's metadata verbatim. -/
theorem c7_createManifest_witness :
    ∃ entries : List ManifestEntry,
      (createManifest [cellW] 4).cells = some entries ∧
      entries[0]? = some ⟨cellFileName 0, some 100, some "print"⟩ := by
  obtain ⟨entries, he, _, hidx, _⟩ := c7_createManifest [cellW] 4
  refine ⟨entries, he, ?_⟩
  simpa [cellW] using hidx 0 cellW rfl

/-! ## Manifest written last (C8) -/

/-- Every position below the cell count has its document written in the
per-cell phase. -/
lemma cellWrites_mem (sw cw : ℚ) (cells : List Cell) :
    ∀ (k i : ℕ), i < cells.length →
      ∃ d, WriteEvent.writeDoc (cellFileName (k + i)) d ∈ cellWrites sw cw cells k := by
  induction cells with
  | nil => intro k i h; simp at h
  | cons c rest ih =>
      intro k i h
      cases i with
      | zero =>
          refine ⟨strokesToSvg c.strokes cw (c.height.getD 320) sw, ?_⟩
          exact List.mem_cons_self _ _
      | succ i =>
          obtain ⟨d, hd⟩ := ih (k + 1) i (by simpa using Nat.succ_lt_succ_iff.mp h)
          refine ⟨d, ?_⟩
          have hk : k + (i + 1) = (k + 1) + i := by omega
          rw [hk]
          exact List.mem_cons_of_mem _ hd

/-- The per-cell phase contains no manifest write. -/
lemma writeManifest_not_mem_cellWrites (sw cw : ℚ) (cells : List Cell)
    (m : ProjectManifest) :
    ∀ k, WriteEvent.writeManifest m ∉ cellWrites sw cw cells k := by
  induction cells with
  | nil => intro k h; simp [cellWrites] at h
  | cons c rest ih =>
      intro k h
      rcases List.mem_cons.mp h with h1 | h2
      · exact WriteEvent.noConfusion h1
      · exact ih (k + 1) h2

/-- **C8**: in every `saveProject` run, any prefix of the write sequence
that contains the manifest write already contains every per-cell document
write — equivalently, the manifest document is written last. -/
theorem c8_manifest_written_last (cells : List Cell) (sw cw : ℚ) :
    (∀ p q : List WriteEvent, p ++ q = saveProjectWrites cells sw cw →
      (∃ m, WriteEvent.writeManifest m ∈ p) →
      ∀ i : ℕ, i < cells.length →
        ∃ d, WriteEvent.writeDoc (cellFileName i) d ∈ p) ∧
    (saveProjectWrites cells sw cw).getLast?
      = some (WriteEvent.writeManifest (createManifest cells sw)) := by
  constructor
  · intro p q hpq hex i hi
    obtain ⟨m, hm⟩ := hex
    have hlen : p.length + q.length = (cellWrites sw cw cells 0).length + 1 := by
      have hc := congrArg List.length hpq
      simpa [saveProjectWrites] using hc
    by_cases hle : p.length ≤ (cellWrites sw cw cells 0).length
    · exfalso
      have hp : p = (cellWrites sw cw cells 0).take p.length := by
        have h1 : p = (p ++ q).take p.length := (List.take_left p q).symm
        rw [hpq, saveProjectWrites, List.take_append_of_le_length hle] at h1
        exact h1
      rw [hp] at hm
      exact writeManifest_not_mem_cellWrites sw cw cells m 0 (List.mem_of_mem_take hm)
    · push_neg at hle
      have hq : q = [] := by
        have hq0 : q.length = 0 := by omega
        exact List.length_eq_zero.mp hq0
      subst hq
      rw [List.append_nil] at hpq
      subst hpq
      obtain ⟨d, hd⟩ := cellWrites_mem sw cw cells 0 i hi
      refine ⟨d, ?_⟩
      rw [saveProjectWrites]
      exact List.mem_append_left _ (by simpa using hd)
  · simp [saveProjectWrites]

/-- Witness for C8: at a one-cell save, the full write sequence is a
prefix of itself containing the manifest write, and the conclusion
produces the cell-document write. -/
theorem c8_manifest_written_last_witness :
    (saveProjectWrites [cellW] 4 800 ++ [] = saveProjectWrites [cellW] 4 800) ∧
    (∃ m, WriteEvent.writeManifest m ∈ saveProjectWrites [cellW] 4 800) ∧
    0 < ([cellW] : List Cell).length ∧
    (∃ d, WriteEvent.writeDoc (cellFileName 0) d ∈ saveProjectWrites [cellW] 4 800) := by
  have h1 : saveProjectWrites [cellW] 4 800 ++ [] = saveProjectWrites [cellW] 4 800 := by
    simp
  have h2 : ∃ m, WriteEvent.writeManifest m ∈ saveProjectWrites [cellW] 4 800 :=
    ⟨createManifest [cellW] 4, by simp [saveProjectWrites]⟩
  have h3 : 0 < ([cellW] : List Cell).length := by decide
  exact ⟨h1, h2, h3, (c8_manifest_written_last [cellW] 4 800).1 _ _ h1 h2 0 h3⟩

/-! ## Manifest-driven loading (C4, C5, C10) -/

/-- Index-wise description of the manifest loading loop: the i-th loaded
cell comes from the i-th found entry, with id counter `k + i`. -/
lemma dirManifestCells_getElem? (store : Store) (idn : ℕ → String)
    (entries : List ManifestEntry) :
    ∀ (k i : ℕ),
      (dirManifestCells store idn entries k)[i]? =
        ((foundEntries store entries)[i]?).map
          (fun ec => loadedCell idn (k + i) ec.1 ec.2) := by
  induction entries with
  | nil => intro k i; simp [dirManifestCells, foundEntries]
  | cons e rest ih =>
      intro k i
      cases hl : storeLookup store e.file with
      | none =>
          simpa [dirManifestCells, foundEntries, List.filterMap_cons, hl] using ih k i
      | some c =>
          cases i with
          | zero =>
              simp [dirManifestCells, foundEntries, List.filterMap_cons, hl]
          | succ i =>
              have hmk : k + (i + 1) = (k + 1) + i := by omega
              simp only [dirManifestCells, hl, foundEntries, List.filterMap_cons,
                Option.map_some, List.getElem?_cons_succ, hmk]
              simpa [foundEntries] using ih (k + 1) i

/-- The zip manifest loop behaves exactly like the directory one. -/
lemma zipManifestCells_eq_dir (store : Store) (idn : ℕ → String) :
    ∀ (entries : List ManifestEntry) (k : ℕ),
      zipManifestCells store idn entries k = dirManifestCells store idn entries k := by
  intro entries
  induction entries with
  | nil => intro k; rfl
  | cons e rest ih =>
      intro k
      cases hl : storeLookup store e.file with
      | none => simpa [zipManifestCells, dirManifestCells, hl] using ih k
      | some c => simpa [zipManifestCells, dirManifestCells, hl] using ih (k + 1)

/-- The manifest loading loop yields one cell per found entry. -/
lemma dirManifestCells_length (store : Store) (idn : ℕ → String)
    (entries : List ManifestEntry) :
    ∀ k, (dirManifestCells store idn entries k).length
      = (foundEntries store entries).length := by
  induction entries with
  | nil => intro k; rfl
  | cons e rest ih =>
      intro k
      cases hl : storeLookup store e.file with
      | none => simpa [dirManifestCells, foundEntries, List.filterMap_cons, hl] using ih k
      | some c =>
          simpa [dirManifestCells, foundEntries, List.filterMap_cons, hl] using ih (k + 1)

/-- `loadProject` with a parseable manifest that has a cells array reduces
to the manifest path. -/
lemma loadProject_manifest_eq (store : Store) (idn : ℕ → String)
    (lc : String → String → Bool)
    {m : ProjectManifest} {entries : List ManifestEntry}
    (hm : storeLookup store "manifest.json" = some (FileContent.json (some m)))
    (hc : m.cells = some entries) :
    loadProject true store idn lc =
      finishLoad (dirManifestCells store idn entries 0) m.strokeWidth
        "No cells found in project" := by
  simp [loadProject, manifestOf, dirCellsOf, hm, hc]

/-- `importProjectFromZip` with a parseable manifest that has a cells
array reduces to the manifest path. -/
lemma importZip_manifest_eq (store : Store) (idn : ℕ → String)
    {m : ProjectManifest} {entries : List ManifestEntry}
    (hm : storeLookup store "manifest.json" = some (FileContent.json (some m)))
    (hc : m.cells = some entries) :
    importProjectFromZip store idn =
      finishLoad (zipManifestCells store idn entries 0) m.strokeWidth
        "No cells found in ZIP" := by
  simp [importProjectFromZip, manifestOf, zipCellsOf, hm, hc]

/-- A successful `finishLoad` carries exactly its cell list, and that list
is non-empty. -/
lemma finishLoad_shape (cells : List Cell) (sw : Option ℚ) (msg : String) :
    (finishLoad cells sw msg).success = true →
    (finishLoad cells sw msg).notebook = some { version := 1, cells := cells } ∧
      cells ≠ [] := by
  intro h
  by_cases hz : cells.length = 0
  · simp [finishLoad, hz] at h
  · refine ⟨by simp [finishLoad, hz], ?_⟩
    intro hnil
    rw [hnil] at hz
    simp at hz

/-- The notebook a loader built under a manifest is the manifest loop's
cell list — shared backbone of C4 and C10. -/
lemma manifest_load_cells (store : Store) (idn : ℕ → String)
    {m : ProjectManifest} {entries : List ManifestEntry}
    (lc : String → String → Bool)
    (hm : storeLookup store "manifest.json" = some (FileContent.json (some m)))
    (hc : m.cells = some entries) (result : LoadResult)
    (hr : result = loadProject true store idn lc ∨ result = importProjectFromZip store idn)
    (nb : Notebook) (hnb : result.notebook = some nb) :
    nb.cells = dirManifestCells store idn entries 0 := by
  rcases hr with rfl | rfl
  · rw [loadProject_manifest_eq store idn lc hm hc] at hnb
    by_cases hz : (dirManifestCells store idn entries 0).length = 0
    · simp [finishLoad, hz] at hnb
    · simp only [finishLoad, hz, if_neg hz, ite_false] at hnb
      cases Option.some_injective _ hnb.symm
      rfl
  · rw [importZip_manifest_eq store idn hm hc, zipManifestCells_eq_dir] at hnb
    by_cases hz : (dirManifestCells store idn entries 0).length = 0
    · simp [finishLoad, hz] at hnb
    · simp only [finishLoad, hz, if_neg hz, ite_false] at hnb
      cases Option.some_injective _ hnb.symm
      rfl

/-- **C4**: with a present, parseable manifest, both adapters return the
loadable cells exactly in manifest-entry order — the i-th loaded cell comes
from the i-th found entry (whatever the lexical order of the document
names) — and each loaded cell carries its entry's recognizedCode. -/
theorem c4_manifest_order (store : Store) (idn : ℕ → String)
    (lc : String → String → Bool)
    (m : ProjectManifest) (entries : List ManifestEntry)
    (hm : storeLookup store "manifest.json" = some (FileContent.json (some m)))
    (hc : m.cells = some entries) :
    ∀ result : LoadResult,
      (result = loadProject true store idn lc ∨ result = importProjectFromZip store idn) →
      ∀ nb : Notebook, result.notebook = some nb →
        nb.cells.length = (foundEntries store entries).length ∧
        ∀ (i : ℕ) (cell : Cell), nb.cells[i]? = some cell →
          ∃ ec : ManifestEntry × FileContent,
            (foundEntries store entries)[i]? = some ec ∧
            cell.recognizedCode = ec.1.recognizedCode ∧
            cell.strokes = (svgToStrokes (asSvgDoc ec.2)).strokes := by
  intro result hr nb hnb
  have hcells := manifest_load_cells store idn lc hm hc result hr nb hnb
  rw [hcells]
  refine ⟨dirManifestCells_length store idn entries 0, ?_⟩
  intro i cell hcell
  rw [dirManifestCells_getElem? store idn entries 0 i] at hcell
  cases hfe : (foundEntries store entries)[i]? with
  | none => rw [hfe] at hcell; exact Option.noConfusion hcell
  | some ec =>
      rw [hfe] at hcell
      refine ⟨ec, rfl, ?_, ?_⟩
      · have hcc := Option.some_injective _ hcell
        rw [← hcc]
        rfl
      · have hcc := Option.some_injective _ hcell
        rw [← hcc]
        rfl

/-- Witness for C4 at `store0`, whose manifest lists `cell-002.svg` before
`cell-001.svg`: the first loaded cell carries recognizedCode "B". -/
theorem c4_manifest_order_witness :
    storeLookup store0 "manifest.json" = some (FileContent.json (some manifest0)) ∧
    manifest0.cells = some entries0 ∧
    ∃ nb : Notebook, (loadProject true store0 idn0 nameLe).notebook = some nb ∧
      ∃ cell : Cell, nb.cells[0]? = some cell ∧ cell.recognizedCode = some "B" := by
  have hm : storeLookup store0 "manifest.json"
      = some (FileContent.json (some manifest0)) := by decide
  have hc : manifest0.cells = some entries0 := rfl
  have hnb : (loadProject true store0 idn0 nameLe).notebook
      = some { version := 1, cells := dirManifestCells store0 idn0 entries0 0 } := by
    rw [loadProject_manifest_eq store0 idn0 nameLe hm hc]
    exact (finishLoad_shape _ _ _ (by decide)).1
  refine ⟨hm, hc, _, hnb, ?_⟩
  obtain ⟨-, hidx⟩ := c4_manifest_order store0 idn0 nameLe manifest0 entries0 hm hc
    (loadProject true store0 idn0 nameLe) (Or.inl rfl) _ hnb
  have hflen : (foundEntries store0 entries0).length = 2 := by decide
  have h0 : 0 < (dirManifestCells store0 idn0 entries0 0).length := by
    rw [dirManifestCells_length store0 idn0 entries0 0, hflen]
    omega
  obtain ⟨cell, hcell⟩ : ∃ cell, (dirManifestCells store0 idn0 entries0 0)[0]? = some cell :=
    ⟨_, List.getElem?_eq_getElem h0⟩
  refine ⟨cell, hcell, ?_⟩
  obtain ⟨ec, hec, hrc, -⟩ := hidx 0 cell hcell
  rw [hrc]
  have hec2 : (foundEntries store0 entries0)[0]?
      = some (⟨"cell-002.svg", none, some "B"⟩, FileContent.svg docB) := by decide
  rw [hec2] at hec
  cases Option.some_injective _ hec
  rfl

/-- `loadProject` with the capability present always reduces to
`finishLoad` over its recovered cells. -/
lemma loadProject_true_eq (store : Store) (idn : ℕ → String)
    (lc : String → String → Bool) :
    loadProject true store idn lc =
      finishLoad (dirCellsOf store idn lc)
        ((manifestOf store).bind (fun m => m.strokeWidth)) "No cells found in project" := rfl

/-- When the zip import is successful it reduced to `finishLoad`, so it
carries a non-empty cell list. -/
lemma importZip_success_shape (store : Store) (idn : ℕ → String)
    (h : (importProjectFromZip store idn).success = true) :
    ∃ nb : Notebook, (importProjectFromZip store idn).notebook = some nb ∧ nb.cells ≠ [] := by
  cases hl : storeLookup store "manifest.json" with
  | none =>
      have he : importProjectFromZip store idn
          = finishLoad (zipCellsOf store idn)
              ((manifestOf store).bind (fun m => m.strokeWidth)) "No cells found in ZIP" := by
        simp [importProjectFromZip, hl]
      rw [he] at h ⊢
      obtain ⟨hn, hne⟩ := finishLoad_shape _ _ _ h
      exact ⟨_, hn, hne⟩
  | some c =>
      cases c with
      | svg d =>
          exfalso
          have he : importProjectFromZip store idn
              = ⟨false, none, none, some "Unexpected token in JSON"⟩ := by
            simp [importProjectFromZip, hl]
          rw [he] at h
          simp at h
      | json mo =>
          cases mo with
          | none =>
              exfalso
              have he : importProjectFromZip store idn
                  = ⟨false, none, none, some "Unexpected token in JSON"⟩ := by
                simp [importProjectFromZip, hl]
              rw [he] at h
              simp at h
          | some m =>
              have he : importProjectFromZip store idn
                  = finishLoad (zipCellsOf store idn)
                      ((manifestOf store).bind (fun mm => mm.strokeWidth))
                      "No cells found in ZIP" := by
                simp [importProjectFromZip, hl]
              rw [he] at h ⊢
              obtain ⟨hn, hne⟩ := finishLoad_shape _ _ _ h
              exact ⟨_, hn, hne⟩

/-- **C5**: with a parseable manifest of n entries of which 0 < k < n are
missing, both adapters succeed with exactly n − k cells; and in general a
load that recovers zero cells is a failure — a successful load of either
adapter always carries a non-empty cell list. -/
theorem c5_partial_and_empty :
    (∀ (store : Store) (idn : ℕ → String) (lc : String → String → Bool)
        (m : ProjectManifest) (entries : List ManifestEntry) (k : ℕ),
      storeLookup store "manifest.json" = some (FileContent.json (some m)) →
      m.cells = some entries →
      (foundEntries store entries).length = entries.length - k →
      0 < k → k < entries.length →
      (((loadProject true store idn lc).success = true ∧
        ∃ nb : Notebook, (loadProject true store idn lc).notebook = some nb ∧
          nb.cells.length = entries.length - k) ∧
       ((importProjectFromZip store idn).success = true ∧
        ∃ nb : Notebook, (importProjectFromZip store idn).notebook = some nb ∧
          nb.cells.length = entries.length - k))) ∧
    (∀ (store : Store) (idn : ℕ → String) (lc : String → String → Bool),
      ((loadProject true store idn lc).success = true →
        ∃ nb : Notebook, (loadProject true store idn lc).notebook = some nb ∧
          nb.cells ≠ []) ∧
      ((importProjectFromZip store idn).success = true →
        ∃ nb : Notebook, (importProjectFromZip store idn).notebook = some nb ∧
          nb.cells ≠ [])) := by
  constructor
  · intro store idn lc m entries k hm hc hlen hk hkn
    have hdlen : (dirManifestCells store idn entries 0).length = entries.length - k := by
      rw [dirManifestCells_length store idn entries 0, hlen]
    have hz : ¬ (dirManifestCells store idn entries 0).length = 0 := by omega
    constructor
    · rw [loadProject_manifest_eq store idn lc hm hc]
      refine ⟨by simp [finishLoad, hz],
        ⟨1, dirManifestCells store idn entries 0⟩, ?_, hdlen⟩
      simp [finishLoad, hz]
    · rw [importZip_manifest_eq store idn hm hc, zipManifestCells_eq_dir]
      refine ⟨by simp [finishLoad, hz],
        ⟨1, dirManifestCells store idn entries 0⟩, ?_, hdlen⟩
      simp [finishLoad, hz]
  · intro store idn lc
    constructor
    · intro h
      rw [loadProject_true_eq] at h ⊢
      obtain ⟨hn, hne⟩ := finishLoad_shape _ _ _ h
      exact ⟨_, hn, hne⟩
    · exact importZip_success_shape store idn

/-- Witness for C5 at `store1`: the manifest lists 2 entries, one document
is missing, and the load succeeds with exactly 1 cell. -/
theorem c5_partial_and_empty_witness :
    storeLookup store1 "manifest.json" = some (FileContent.json (some manifest0)) ∧
    manifest0.cells = some entries0 ∧
    (foundEntries store1 entries0).length = entries0.length - 1 ∧
    0 < 1 ∧ 1 < entries0.length ∧
    ((loadProject true store1 idn0 nameLe).success = true ∧
      ∃ nb : Notebook, (loadProject true store1 idn0 nameLe).notebook = some nb ∧
        nb.cells.length = entries0.length - 1) := by
  have hm : storeLookup store1 "manifest.json"
      = some (FileContent.json (some manifest0)) := by decide
  have hc : manifest0.cells = some entries0 := rfl
  have hlen : (foundEntries store1 entries0).length = entries0.length - 1 := by decide
  have hk : (0 : ℕ) < 1 := by decide
  have hkn : 1 < entries0.length := by decide
  exact ⟨hm, hc, hlen, hk, hkn,
    (c5_partial_and_empty.1 store1 idn0 nameLe manifest0 entries0 1 hm hc hlen hk hkn).1⟩

/-- **C10**: a cell loaded through a manifest entry takes its height from
the entry whenever that field is defined, and only otherwise from the
geometry parsed out of its SVG document — the manifest wins when the two
disagree; in both adapters. -/
theorem c10_manifest_height (store : Store) (idn : ℕ → String)
    (lc : String → String → Bool)
    (m : ProjectManifest) (entries : List ManifestEntry)
    (hm : storeLookup store "manifest.json" = some (FileContent.json (some m)))
    (hc : m.cells = some entries) :
    ∀ result : LoadResult,
      (result = loadProject true store idn lc ∨ result = importProjectFromZip store idn) →
      ∀ nb : Notebook, result.notebook = some nb →
      ∀ (i : ℕ) (cell : Cell), nb.cells[i]? = some cell →
        ∃ ec : ManifestEntry × FileContent,
          (foundEntries store entries)[i]? = some ec ∧
          (∀ h : ℚ, ec.1.height = some h → cell.height = some h) ∧
          (ec.1.height = none →
            cell.height = some (svgToStrokes (asSvgDoc ec.2)).height) := by
  intro result hr nb hnb i cell hcell
  have hcells := manifest_load_cells store idn lc hm hc result hr nb hnb
  rw [hcells, dirManifestCells_getElem? store idn entries 0 i] at hcell
  cases hfe : (foundEntries store entries)[i]? with
  | none => rw [hfe] at hcell; exact Option.noConfusion hcell
  | some ec =>
      rw [hfe] at hcell
      have hcc := Option.some_injective _ hcell
      refine ⟨ec, rfl, ?_, ?_⟩
      · intro hh hhe
        rw [← hcc]
        simp [loadedCell, hhe]
      · intro hhe
        rw [← hcc]
        simp [loadedCell, hhe]

/-- Witness for C10 at `store0`: the entry for `cell-001.svg` declares
height 111 while its document decodes to height 320; the loaded cell has
height 111. -/
theorem c10_manifest_height_witness :
    storeLookup store0 "manifest.json" = some (FileContent.json (some manifest0)) ∧
    manifest0.cells = some entries0 ∧
    ∃ nb : Notebook, (loadProject true store0 idn0 nameLe).notebook = some nb ∧
      ∃ cell : Cell, nb.cells[1]? = some cell ∧ cell.height = some 111 := by
  have hm : storeLookup store0 "manifest.json"
      = some (FileContent.json (some manifest0)) := by decide
  have hc : manifest0.cells = some entries0 := rfl
  have hnb : (loadProject true store0 idn0 nameLe).notebook
      = some { version := 1, cells := dirManifestCells store0 idn0 entries0 0 } := by
    rw [loadProject_manifest_eq store0 idn0 nameLe hm hc]
    exact (finishLoad_shape _ _ _ (by decide)).1
  refine ⟨hm, hc, _, hnb, ?_⟩
  have hflen : (foundEntries store0 entries0).length = 2 := by decide
  have h1 : 1 < (dirManifestCells store0 idn0 entries0 0).length := by
    rw [dirManifestCells_length store0 idn0 entries0 0, hflen]
    omega
  obtain ⟨cell, hcell⟩ : ∃ cell, (dirManifestCells store0 idn0 entries0 0)[1]? = some cell :=
    ⟨_, List.getElem?_eq_getElem h1⟩
  refine ⟨cell, hcell, ?_⟩
  obtain ⟨ec, hec, hsome, -⟩ := c10_manifest_height store0 idn0 nameLe manifest0 entries0 hm hc
    (loadProject true store0 idn0 nameLe) (Or.inl rfl) _ hnb 1 cell hcell
  have hec2 : (foundEntries store0 entries0)[1]?
      = some (⟨"cell-001.svg", some 111, some "A"⟩, FileContent.svg docA) := by decide
  rw [hec2] at hec
  cases Option.some_injective _ hec
  exact hsome 111 rfl

/-! ## Adapter equivalence (C6) -/

/-- Sorted insertion introduces no members beyond the inserted one,
whatever the comparator. -/
lemma mem_insertPairBy {lc : String → String → Bool} {x e : String × FileContent}
    {l : List (String × FileContent)}
    (h : x ∈ insertPairBy lc e l) : x = e ∨ x ∈ l := by
  induction l with
  | nil => simpa [insertPairBy] using h
  | cons f rest ih =>
      simp only [insertPairBy] at h
      by_cases hle : lc e.1 f.1
      · rw [if_pos hle] at h
        rcases List.mem_cons.mp h with rfl | h2
        · exact Or.inl rfl
        · exact Or.inr h2
      · rw [if_neg hle] at h
        rcases List.mem_cons.mp h with rfl | h2
        · exact Or.inr (List.mem_cons_self _ _)
        · rcases ih h2 with rfl | h3
          · exact Or.inl rfl
          · exact Or.inr (List.mem_cons_of_mem _ h3)

/-- Sorting permutes: every member of the sorted list was a member,
whatever the comparator. -/
lemma mem_sortPairsBy {lc : String → String → Bool} {x : String × FileContent}
    {l : List (String × FileContent)}
    (h : x ∈ sortPairsBy lc l) : x ∈ l := by
  induction l generalizing x with
  | nil => simp [sortPairsBy] at h
  | cons e rest ih =>
      have h2 : x ∈ insertPairBy lc e (sortPairsBy lc rest) := h
      rcases mem_insertPairBy h2 with rfl | h3
      · exact List.mem_cons_self _ _
      · exact List.mem_cons_of_mem _ (ih h3)

/-- With pairwise-distinct member names, looking a member's own name up
finds exactly that member. -/
lemma storeLookup_of_mem :
    ∀ store : Store, (store.map Prod.fst).Nodup →
      ∀ {n : String} {c : FileContent}, (n, c) ∈ store → storeLookup store n = some c := by
  intro store
  induction store with
  | nil => intro _ n c hmem; simp at hmem
  | cons e rest ih =>
      intro hnd n c hmem
      have hnd2 : (rest.map Prod.fst).Nodup := (List.nodup_cons.mp hnd).2
      rcases List.mem_cons.mp hmem with rfl | hmem2
      · simp [storeLookup]
      · have hnin : e.1 ∉ rest.map Prod.fst := (List.nodup_cons.mp hnd).1
        have hne : ¬ (e.1 = n) := by
          intro heq
          apply hnin
          rw [heq]
          exact List.mem_map_of_mem Prod.fst hmem2
        have hrec := ih hnd2 hmem2
        simp only [storeLookup, List.find?_cons] at hrec ⊢
        simp [hne]
        simpa [storeLookup] using hrec

/-- Looking each sorted name up again (zip scan) reads the same documents
the directory scan reads directly from its sorted handles. -/
lemma zipScanLoop_eq_dirScanLoop (store : Store) (idn : ℕ → String)
    (hnd : (store.map Prod.fst).Nodup) :
    ∀ l : List (String × FileContent), (∀ x ∈ l, x ∈ store) →
      ∀ k, zipScanLoop store idn (l.map Prod.fst) k = dirScanLoop idn l k := by
  intro l
  induction l with
  | nil => intro _ k; rfl
  | cons e rest ih =>
      intro hsub k
      have hl : storeLookup store e.1 = some e.2 :=
        storeLookup_of_mem store hnd (by exact hsub e (List.mem_cons_self _ _))
      simp only [List.map_cons, zipScanLoop, hl, dirScanLoop]
      exact congrArg _ (ih (fun x hx => hsub x (List.mem_cons_of_mem _ hx)) (k + 1))

/-- With pairwise-distinct member names, the two no-manifest fallback
scans agree whenever the host collation `lc` happens to order the `.svg`
member names exactly as the archive's code-unit sort does.  (Without that
hypothesis the scans can return the cells in different orders: the
collations genuinely differ on mixed-case names in real locales.) -/
lemma zipScanCells_eq_dir (store : Store) (idn : ℕ → String)
    (lc : String → String → Bool)
    (hnd : (store.map Prod.fst).Nodup)
    (hsort : (sortPairsBy lc (store.filter (fun e => strEndsWith e.1 ".svg"))).map Prod.fst
      = sortNames ((store.map Prod.fst).filter (fun n => strEndsWith n ".svg"))) :
    zipScanCells store idn = dirScanCells store idn lc := by
  unfold zipScanCells dirScanCells
  rw [← hsort]
  exact zipScanLoop_eq_dirScanLoop store idn hnd _
    (fun x hx => List.mem_of_mem_filter (mem_sortPairsBy hx)) 0

/-- `finishLoad` results differing only in their failure message agree on
success, notebook and stroke width. -/
lemma finishLoad_agree (cells : List Cell) (sw : Option ℚ) (msgA msgB : String) :
    (finishLoad cells sw msgA).success = (finishLoad cells sw msgB).success ∧
    (finishLoad cells sw msgA).notebook = (finishLoad cells sw msgB).notebook ∧
    (finishLoad cells sw msgA).strokeWidth = (finishLoad cells sw msgB).strokeWidth := by
  by_cases h : cells.length = 0 <;> simp [finishLoad, h]

/-- Both save paths emit identical per-cell members. -/
lemma zipCellDocs_eq_dir (sw cw : ℚ) :
    ∀ (cells : List Cell) (i : ℕ), zipCellDocs sw cw cells i = dirCellDocs sw cw cells i := by
  intro cells
  induction cells with
  | nil => intro i; rfl
  | cons c rest ih => intro i; simp [zipCellDocs, dirCellDocs, ih (i + 1)]

/-- The directory save and the zip export produce member-for-member
identical stores. -/
lemma savedStore_eq_export (cells : List Cell) (sw cw : ℚ) :
    savedStore cells sw cw = zipExportStore cells sw cw := by
  unfold savedStore zipExportStore
  rw [zipCellDocs_eq_dir]

/-- **C6** (amended): on any store with pairwise-distinct member names,
provided (a) `manifest.json`, when present, parses as JSON and (b) the
host collation behind the directory scan's `localeCompare` orders the
`.svg` member names exactly as the archive scan's default code-unit sort
(true of the codec's own zero-padded lowercase names, but not of
arbitrary mixed-case names in real locales), the two adapters perform the
same loading procedure — manifest-first, name-sorted fallback, same
partial tolerance — and agree on success, notebook (the full cell
sequence) and stroke width; and the two save paths write member-for-member
identical projects, so a project saved by one adapter loads identically in
the other.  (When a present manifest does NOT parse the adapters diverge —
see the counterexample; when the collations disagree on the member names
the fallback scans may return the cells in different orders.) -/
theorem c6_adapters_agree (store : Store) (idn : ℕ → String)
    (lc : String → String → Bool)
    (hnd : (store.map Prod.fst).Nodup)
    (hm : ∀ c, storeLookup store "manifest.json" = some c →
      ∃ m : ProjectManifest, c = FileContent.json (some m))
    (hsort : (sortPairsBy lc (store.filter (fun e => strEndsWith e.1 ".svg"))).map Prod.fst
      = sortNames ((store.map Prod.fst).filter (fun n => strEndsWith n ".svg"))) :
    ((loadProject true store idn lc).success = (importProjectFromZip store idn).success ∧
     (loadProject true store idn lc).notebook = (importProjectFromZip store idn).notebook ∧
     (loadProject true store idn lc).strokeWidth
        = (importProjectFromZip store idn).strokeWidth) ∧
    (∀ (cells : List Cell) (sw cw : ℚ), savedStore cells sw cw = zipExportStore cells sw cw) := by
  constructor
  · have hzip : importProjectFromZip store idn
        = finishLoad (zipCellsOf store idn)
            ((manifestOf store).bind (fun m => m.strokeWidth)) "No cells found in ZIP" := by
      cases hl : storeLookup store "manifest.json" with
      | none => simp [importProjectFromZip, hl]
      | some c =>
          obtain ⟨m, rfl⟩ := hm c hl
          simp [importProjectFromZip, hl]
    have hcells : zipCellsOf store idn = dirCellsOf store idn lc := by
      unfold zipCellsOf dirCellsOf
      cases hmo : manifestOf store with
      | none => simpa using zipScanCells_eq_dir store idn lc hnd hsort
      | some m =>
          cases hmc : m.cells with
          | none =>
              simp only [hmc]
              exact zipScanCells_eq_dir store idn lc hnd hsort
          | some entries =>
              simp only [hmc]
              exact zipManifestCells_eq_dir store idn entries 0
    rw [loadProject_true_eq, hzip, hcells]
    exact finishLoad_agree _ _ _ _
  · exact savedStore_eq_export

/-- Witness for C6 at `store0` (manifest present and parseable, distinct
member names, a collation agreeing with the code-unit sort on them): the
two adapters return the same notebook. -/
theorem c6_adapters_agree_witness :
    (store0.map Prod.fst).Nodup ∧
    (∀ c, storeLookup store0 "manifest.json" = some c →
      ∃ m : ProjectManifest, c = FileContent.json (some m)) ∧
    ((sortPairsBy nameLe (store0.filter (fun e => strEndsWith e.1 ".svg"))).map Prod.fst
      = sortNames ((store0.map Prod.fst).filter (fun n => strEndsWith n ".svg"))) ∧
    (loadProject true store0 idn0 nameLe).notebook
      = (importProjectFromZip store0 idn0).notebook := by
  have h1 : (store0.map Prod.fst).Nodup := by decide
  have h2 : ∀ c, storeLookup store0 "manifest.json" = some c →
      ∃ m : ProjectManifest, c = FileContent.json (some m) := by
    intro c hc
    have he : storeLookup store0 "manifest.json"
        = some (FileContent.json (some manifest0)) := by decide
    rw [he] at hc
    exact ⟨manifest0, (Option.some_injective _ hc).symm⟩
  have h3 : (sortPairsBy nameLe (store0.filter (fun e => strEndsWith e.1 ".svg"))).map Prod.fst
      = sortNames ((store0.map Prod.fst).filter (fun n => strEndsWith n ".svg")) := by decide
  exact ⟨h1, h2, h3, ((c6_adapters_agree store0 idn0 nameLe h1 h2 h3).1).2.1⟩

/-- The collation hypothesis of `c6_adapters_agree` is not vacuous: under
a locale-style collation, the directory scan of `storeMixed` returns
`a.svg` first while the archive scan's code-unit sort returns `B.svg`
first, so the two adapters produce different cell sequences there. -/
lemma scan_order_depends_on_collation :
    (loadProject true storeMixed idn0 localeLikeLe).notebook
      ≠ (importProjectFromZip storeMixed idn0).notebook := by
  decide

/-- **C6** (counterexample): on `store2`, whose `manifest.json` does not
parse, the live-handle adapter (under any collation; the scan here has a
single member, so `nameLe` is representative) falls back to the SVG scan
and succeeds with one cell, while the zip adapter propagates the parse
failure and fails — the two adapters do not perform the same loading
procedure on identical content. -/
theorem c6_parse_divergence :
    (loadProject true store2 idn0 nameLe).success = true ∧
    (importProjectFromZip store2 idn0).success = false := by
  constructor
  · decide
  · decide

/-! ## Execution bridge correlation (C2) -/

/-- A successful `pending.get` names a member of the map. -/
lemma mapGet_eq_some {m : List (ℕ × String)} {k : ℕ} {v : String}
    (h : mapGet m k = some v) : (k, v) ∈ m := by
  unfold mapGet at h
  cases hf : m.find? (fun e => e.1 == k) with
  | none => rw [hf] at h; exact Option.noConfusion h
  | some e =>
      rw [hf] at h
      have hmem := List.mem_of_find?_eq_some hf
      have hpred := List.find?_some hf
      simp only [beq_iff_eq] at hpred
      have hv : e.2 = v := by simpa using h
      have hkv : e = (k, v) := by
        cases e
        simp_all
      rw [← hkv]
      exact hmem

/-- A failed `pending.get` means no member carries the key. -/
lemma mapGet_eq_none {m : List (ℕ × String)} {k : ℕ}
    (h : mapGet m k = none) : ∀ e ∈ m, e.1 ≠ k := by
  unfold mapGet at h
  cases hf : m.find? (fun e => e.1 == k) with
  | some e => rw [hf] at h; exact Option.noConfusion h
  | none =>
      intro e hmem heq
      have hp := List.find?_eq_none.mp hf e hmem
      simp [heq] at hp

/-- Members after `pending.set` are the new binding or old members with a
different key. -/
lemma mem_mapSet {m : List (ℕ × String)} {k : ℕ} {v : String} {e : ℕ × String}
    (h : e ∈ mapSet m k v) : e = (k, v) ∨ (e ∈ m ∧ e.1 ≠ k) := by
  rcases List.mem_cons.mp h with rfl | h2
  · exact Or.inl rfl
  · have hf := List.mem_filter.mp h2
    refine Or.inr ⟨hf.1, ?_⟩
    simpa using hf.2

/-- Members after `pending.delete` are old members with a different key. -/
lemma mem_mapDelete {m : List (ℕ × String)} {k : ℕ} {e : ℕ × String}
    (h : e ∈ mapDelete m k) : e ∈ m ∧ e.1 ≠ k := by
  have hf := List.mem_filter.mp h
  exact ⟨hf.1, by simpa using hf.2⟩

/-- Filtering a map keeps its keys pairwise distinct. -/
lemma nodup_map_fst_filter {m : List (ℕ × String)} (p : ℕ × String → Bool)
    (h : (m.map Prod.fst).Nodup) : ((m.filter p).map Prod.fst).Nodup :=
  h.sublist ((List.filter_sublist m).map Prod.fst)

/-- One bridge step preserves the invariant, extending the submission list
and the resolution log by what the step produced. -/
lemma bridgeStep_good {s : BridgeState} {subs : List String} {log : List Resolution}
    (hg : goodState s subs log) (ev : BridgeEvent) :
    goodState (bridgeStep s ev).1 (subs ++ submitsOf [ev])
      (log ++ ((bridgeStep s ev).2).toList) := by
  cases ev with
  | submit code =>
      obtain ⟨hid, hpend, hpnd, hlnd, hlog, hdisj⟩ := hg
      show goodState ⟨s.reqId + 1, mapSet s.pending (s.reqId + 1) code⟩
        (subs ++ [code]) (log ++ [])
      rw [List.append_nil]
      refine ⟨?_, ?_, ?_, hlnd, ?_, ?_⟩
      · show s.reqId + 1 = (subs ++ [code]).length
        simp [hid]
      · intro e he
        rcases mem_mapSet he with rfl | ⟨hmem, -⟩
        · refine ⟨by omega, Nat.le_refl _, ?_⟩
          show (subs ++ [code])[s.reqId + 1 - 1]? = some code
          simp only [Nat.add_sub_cancel]
          rw [hid, List.getElem?_concat_length]
        · obtain ⟨h1, h2, h3⟩ := hpend e hmem
          refine ⟨h1, ?_, ?_⟩
          · show e.1 ≤ s.reqId + 1
            omega
          · show (subs ++ [code])[e.1 - 1]? = some e.2
            rw [List.getElem?_append_left (by omega)]
            exact h3
      · show ((mapSet s.pending (s.reqId + 1) code).map Prod.fst).Nodup
        simp only [mapSet, List.map_cons]
        refine List.nodup_cons.mpr ⟨?_, nodup_map_fst_filter _ hpnd⟩
        intro hin
        obtain ⟨e, hef, hef1⟩ := List.mem_map.mp hin
        have hmem := (List.mem_filter.mp hef).1
        have hb := (hpend e hmem).2.1
        omega
      · intro r hr
        obtain ⟨h1, h2, h3⟩ := hlog r hr
        refine ⟨h1, ?_, ?_⟩
        · show r.token ≤ s.reqId + 1
          omega
        · show (subs ++ [code])[r.token - 1]? = some r.code
          rw [List.getElem?_append_left (by omega)]
          exact h3
      · intro r hr e he
        rcases mem_mapSet he with rfl | ⟨hmem, -⟩
        · have hb := (hlog r hr).2.1
          show r.token ≠ s.reqId + 1
          omega
        · exact hdisj r hr e hmem
  | respond t resp =>
      cases hget : mapGet s.pending t with
      | none =>
          have hstep : bridgeStep s (BridgeEvent.respond t resp) = (s, none) := by
            simp [bridgeStep, hget]
          rw [hstep]
          simpa [submitsOf] using hg
      | some code =>
          have hmem : (t, code) ∈ s.pending := mapGet_eq_some hget
          have hstep : bridgeStep s (BridgeEvent.respond t resp)
              = (⟨s.reqId, mapDelete s.pending t⟩, some ⟨t, code, resp⟩) := by
            simp [bridgeStep, hget]
          rw [hstep]
          obtain ⟨hid, hpend, hpnd, hlnd, hlog, hdisj⟩ := hg
          have htb := hpend (t, code) hmem
          refine ⟨?_, ?_, ?_, ?_, ?_, ?_⟩
          · simpa [submitsOf] using hid
          · intro e he
            obtain ⟨hmem2, -⟩ := mem_mapDelete he
            simpa [submitsOf] using hpend e hmem2
          · exact nodup_map_fst_filter _ hpnd
          · simp only [Option.toList, List.map_append, List.map_cons, List.map_nil]
            rw [List.nodup_append]
            refine ⟨hlnd, List.nodup_singleton _, ?_⟩
            intro a ha hb
            obtain ⟨r, hrl, hrt⟩ := List.mem_map.mp ha
            have hat : a = t := by simpa using hb
            exact hdisj r hrl (t, code) hmem (by rw [hrt, hat])
          · intro r hr
            rcases List.mem_append.mp hr with hr1 | hr2
            · obtain ⟨h1, h2, h3⟩ := hlog r hr1
              exact ⟨h1, h2, by simpa [submitsOf] using h3⟩
            · have hre : r = ⟨t, code, resp⟩ := by simpa using hr2
              subst hre
              exact ⟨htb.1, htb.2.1, by simpa [submitsOf] using htb.2.2⟩
          · intro r hr e he
            obtain ⟨hmem2, hne⟩ := mem_mapDelete he
            rcases List.mem_append.mp hr with hr1 | hr2
            · exact hdisj r hr1 e hmem2
            · have hre : r = ⟨t, code, resp⟩ := by simpa using hr2
              subst hre
              exact Ne.symm hne

/-- The invariant holds along every run. -/
lemma bridgeRun_good :
    ∀ (evs : List BridgeEvent) (s : BridgeState) (subs : List String)
      (log : List Resolution), goodState s subs log →
      goodState (bridgeRun s evs).1 (subs ++ submitsOf evs)
        (log ++ (bridgeRun s evs).2) := by
  intro evs
  induction evs with
  | nil => intro s subs log hg; simpa [bridgeRun, submitsOf] using hg
  | cons ev rest ih =>
      intro s subs log hg
      have hstep := bridgeStep_good hg ev
      have hrec := ih (bridgeStep s ev).1 (subs ++ submitsOf [ev])
        (log ++ ((bridgeStep s ev).2).toList) hstep
      have hsubs : (subs ++ submitsOf [ev]) ++ submitsOf rest
          = subs ++ submitsOf (ev :: rest) := by
        cases ev <;> simp [submitsOf]
      have hlog2 : (log ++ ((bridgeStep s ev).2).toList) ++ (bridgeRun (bridgeStep s ev).1 rest).2
          = log ++ (bridgeRun s (ev :: rest)).2 := by
        simp [bridgeRun]
      rw [hsubs, hlog2] at hrec
      simpa [bridgeRun] using hrec

/-- The invariant holds at the initial state. -/
lemma goodState_init : goodState initBridge [] [] := by
  refine ⟨rfl, ?_, ?_, ?_, ?_, ?_⟩ <;> simp [initBridge]

/-- **C2**: along every event trace, (1) no request resolves twice — the
delivered resolutions carry pairwise-distinct tokens; (2) every delivered
resolution carries exactly the code submitted with its token, so two
overlapping submissions can never receive swapped outputs; (3) a response
whose token matches no pending entry is dropped with no effect on the
state; (4) a single response resolves at most one pending request, namely
the one holding its token, with exactly that response's stdout/stderr. -/
theorem c2_token_correlation (evs : List BridgeEvent) :
    ((bridgeRun initBridge evs).2.map Resolution.token).Nodup ∧
    (∀ r ∈ (bridgeRun initBridge evs).2, (submitsOf evs)[r.token - 1]? = some r.code) ∧
    (∀ (s : BridgeState) (t : ℕ) (r : Response),
      mapGet s.pending t = none →
      bridgeStep s (BridgeEvent.respond t r) = (s, none)) ∧
    (∀ (s : BridgeState) (t : ℕ) (r : Response) (s2 : BridgeState) (res : Resolution),
      bridgeStep s (BridgeEvent.respond t r) = (s2, some res) →
      res.token = t ∧ res.result = r ∧ mapGet s.pending t = some res.code) := by
  have h := bridgeRun_good evs initBridge [] [] goodState_init
  simp only [List.nil_append] at h
  obtain ⟨-, -, -, hnd, hlog, -⟩ := h
  refine ⟨hnd, ?_, ?_, ?_⟩
  · intro r hr
    exact (hlog r hr).2.2
  · intro s t r hget
    simp [bridgeStep, hget]
  · intro s t r s2 res hstep
    cases hget : mapGet s.pending t with
    | none => simp [bridgeStep, hget] at hstep
    | some code =>
        simp only [bridgeStep, hget] at hstep
        have hres : res = ⟨t, code, r⟩ := by
          have hsnd := congrArg Prod.snd hstep
          simpa using hsnd.symm
        subst hres
        exact ⟨rfl, rfl, rfl⟩

/-- Witness for C2: the concrete trace `evs0` delivers distinct tokens,
and a response to an unknown token leaves a concrete state untouched. -/
theorem c2_token_correlation_witness :
    ((bridgeRun initBridge evs0).2.map Resolution.token).Nodup ∧
    mapGet (⟨5, []⟩ : BridgeState).pending 3 = none ∧
    bridgeStep ⟨5, []⟩ (BridgeEvent.respond 3 ⟨"o", "e"⟩) = (⟨5, []⟩, none) := by
  refine ⟨(c2_token_correlation evs0).1, by decide, ?_⟩
  exact (c2_token_correlation evs0).2.2.1 ⟨5, []⟩ 3 ⟨"o", "e"⟩ (by decide)

end Codepencil
